import Mathlib

/-!
Verification of the SACCO bookkeeping application's computational core
(`SACCO_App_streamlit_app.py`) against its natural-language specification.

Embedding conventions:
* Monetary amounts and rates are exact rationals (`ℚ`); the Python source
  computes with IEEE floats, and the spec's "within rounding" tolerances are
  interpreted over the exact-arithmetic values of the same formulas.
* Compound accrual (`compound_amount`) uses real exponentiation (`ℝ`, `rpow`)
  because its exponent `n * t` is fractional.
* Calendar dates are integers (`date.toordinal`); the source advances due
  dates by `date.fromordinal(d.toordinal() + 30)`, i.e. by `+ 30`.
* Python strings in the password module are `List Char`; `str.split("$")`
  is `splitDollar`; Python exceptions escaping a function are `Option.none`.
-/

/-! ## Interest & Amortization Engine -/

/-- `years_between` from the source: `(d1 - d0).days / 365.0`. -/
noncomputable def years_between (d0 d1 : ℤ) : ℝ :=
  ((d1 - d0 : ℤ) : ℝ) / 365

/-- `compound_amount` from the source: if the annual rate is `≤ 0` the
principal is returned unchanged; otherwise `P * (1 + (r/100)/n) ^ (n*t)`
with `n = 365` for daily and `12` for any other (monthly) frequency. -/
noncomputable def compound_amount (P : ℝ) (annual_rate_pct : ℝ)
    (startDate endDate : ℤ) (freq : String) : ℝ :=
  if annual_rate_pct ≤ 0 then P
  else
    let n : ℝ := if freq = ("Daily") then 365 else 12
    let t : ℝ := years_between startDate endDate
    P * (1 + annual_rate_pct / 100 / n) ^ (n * t)

/-- One row of the amortization schedule, mirroring the dict appended in the
source's loop (`Installment #`, `Due Date`, `Payment`, `Interest`,
`Principal`, `Balance`). -/
structure SchedRow where
  installment : ℕ
  dueDate : ℤ
  payment : ℚ
  interest : ℚ
  principal : ℚ
  balance : ℚ
  deriving DecidableEq, Repr

/-- The loop body of `amortization_schedule`: `rem` iterations remain,
`balance` is the running balance, `cur` the current due date and `m` the next
installment number.  Each iteration computes `interest = balance * r`,
`principal_part = payment - interest`, clamps the new balance at zero, appends
the row, and advances the date by 30 days. -/
def amortLoop (payment r : ℚ) : ℕ → ℚ → ℤ → ℕ → List SchedRow
  | 0, _, _, _ => []
  | rem + 1, balance, cur, m =>
      let interest := balance * r
      let principal_part := payment - interest
      let newBalance := max 0 (balance - principal_part)
      { installment := m, dueDate := cur, payment := payment,
        interest := interest, principal := principal_part,
        balance := newBalance }
        :: amortLoop payment r rem newBalance (cur + 30) (m + 1)

/-- `amortization_schedule` from the source: monthly rate `r = (pct/100)/12`,
level payment `P/months` when `r = 0` and
`P * (r (1+r)^months) / ((1+r)^months - 1)` otherwise, then the loop
starting at installment 1 with balance `P` and due date `start_date`. -/
def amortization_schedule (principal annual_rate_pct : ℚ) (months : ℕ)
    (start_date : ℤ) : List SchedRow :=
  let r := annual_rate_pct / 100 / 12
  let payment :=
    if r = 0 then principal / (months : ℚ)
    else principal * (r * (1 + r) ^ months) / ((1 + r) ^ months - 1)
  amortLoop payment r months principal start_date 1

/-- The Loan Management page's "Outstanding Balance" computation: filter the
schedule to rows whose due date is `≤ asOf`; if any remain, take the last
one's balance (`schedule[due_mask].iloc[-1]["Balance"]`), otherwise fall back
to the stored loan amount. -/
def outstanding_balance (schedule : List SchedRow) (asOf : ℤ)
    (loan_amount : ℚ) : ℚ :=
  match (schedule.filter (fun row => decide (row.dueDate ≤ asOf))).getLast? with
  | some row => row.balance
  | none => loan_amount

/-! ## Ledger Store and Ledger Operations -/

/-- One `savings_deposits` row. -/
structure SavingsRow where
  amount : ℚ
  date : ℤ
  transaction_id : String
  member_id : String
  interest_rate : ℚ
  deriving DecidableEq, Repr

/-- One `loans` row (the persisted derived totals included). -/
structure LoanRow where
  loan_amount : ℚ
  loan_period : ℕ
  total_repayment : ℚ
  monthly_installment : ℚ
  loan_date : ℤ
  loan_transaction_id : String
  member_id : String
  interest_rate : ℚ
  deriving DecidableEq, Repr

/-- The ledger store: member ids plus the savings and loans tables. -/
structure Db where
  members : List String
  savings : List SavingsRow
  loans : List LoanRow
  deriving DecidableEq, Repr

/-- The `submit_deposit` handler: validation (`amount <= 0 or not
transaction_id`) rejects before touching the store; a duplicate
`transaction_id` or unknown member violates the schema's UNIQUE / FOREIGN KEY
constraints (`sqlite3.IntegrityError`); otherwise the row is inserted. -/
def submit_deposit (db : Db) (amount : ℚ) (deposit_date : ℤ)
    (transaction_id member_id : String) (interest_rate : ℚ) :
    Except String Db :=
  if amount ≤ 0 ∨ transaction_id = ("") then
    Except.error ("Amount must be > 0 and Transaction ID is required.")
  else if (∃ row ∈ db.savings, row.transaction_id = transaction_id) ∨
      member_id ∉ db.members then
    Except.error ("Save failed: IntegrityError")
  else
    Except.ok { db with
      savings := db.savings ++
        [{ amount := amount, date := deposit_date,
           transaction_id := transaction_id, member_id := member_id,
           interest_rate := interest_rate }] }

/-- The `submit_loan` handler: validation (`loan_amount <= 0 or not
loan_txn_id`) rejects first; then `total = loan_amount * (1 + loan_rate/100)`
and `monthly = total / loan_period` are computed and stored on the inserted
row; constraint violations surface as `sqlite3.IntegrityError`. -/
def submit_loan (db : Db) (loan_amount : ℚ) (loan_period : ℕ)
    (loan_rate : ℚ) (loan_date : ℤ) (loan_txn_id member_id : String) :
    Except String Db :=
  if loan_amount ≤ 0 ∨ loan_txn_id = ("") then
    Except.error ("Amount must be > 0 and Txn ID is required.")
  else
    let total := loan_amount * (1 + loan_rate / 100)
    let monthly := total / (loan_period : ℚ)
    if (∃ row ∈ db.loans, row.loan_transaction_id = loan_txn_id) ∨
        member_id ∉ db.members then
      Except.error ("Save failed: IntegrityError")
    else
      Except.ok { db with
        loans := db.loans ++
          [{ loan_amount := loan_amount, loan_period := loan_period,
             total_repayment := total, monthly_installment := monthly,
             loan_date := loan_date, loan_transaction_id := loan_txn_id,
             member_id := member_id, interest_rate := loan_rate }] }

/-- Outcome reported by the delete handlers: `st.success("Deleted.")` when
`cur.rowcount` is nonzero, `st.warning("Not found.")` otherwise. -/
inductive DeleteFeedback where
  | deleted
  | notFound
  deriving DecidableEq, Repr

/-- The "DELETE Savings" handler: `DELETE FROM savings_deposits WHERE
transaction_id = ?`, then branch on `cur.rowcount`.  Returns the new store,
the affected-row count, and the reported outcome. -/
def handle_delete_savings (db : Db) (txn : String) :
    Db × ℕ × DeleteFeedback :=
  let remaining := db.savings.filter (fun row => decide (¬ row.transaction_id = txn))
  let rowcount := db.savings.length - remaining.length
  ({ db with savings := remaining }, rowcount,
    if rowcount ≠ 0 then DeleteFeedback.deleted else DeleteFeedback.notFound)

/-- The "DELETE Loan" handler: `DELETE FROM loans WHERE loan_transaction_id
= ?`, then branch on `cur.rowcount`. -/
def handle_delete_loan (db : Db) (txn : String) :
    Db × ℕ × DeleteFeedback :=
  let remaining := db.loans.filter (fun row => decide (¬ row.loan_transaction_id = txn))
  let rowcount := db.loans.length - remaining.length
  ({ db with loans := remaining }, rowcount,
    if rowcount ≠ 0 then DeleteFeedback.deleted else DeleteFeedback.notFound)

/-! ## Security helpers (password hashing)

Python strings are embedded as `List Char`; `bytes` values as `List ℕ`
(one entry per byte).  `hashlib.pbkdf2_hmac("sha256", ...)` is an external
cryptographic primitive; every theorem below is universally quantified over
an arbitrary deterministic derivation function `prf` in its place, so nothing
proved here depends on its values.  A Python exception that escapes a
function is modelled as `Option.none`. -/

/-- The base64 alphabet, in index order. -/
def b64chars : List Char :=
  ("ABCDEFGHIJKLMNOPQRSTUVWXYZabcdefghijklmnopqrstuvwxyz0123456789+/").toList

/-- Character of a 6-bit group. -/
def chr6 (i : ℕ) : Char := b64chars.getD i ('A')

/-- Index scan used by `chrIndex`. -/
def chrIndexAux (c : Char) : List Char → ℕ → Option ℕ
  | [], _ => none
  | d :: rest, i => if d = c then some i else chrIndexAux c rest (i + 1)

/-- Index of a character in the base64 alphabet, if any. -/
def chrIndex (c : Char) : Option ℕ := chrIndexAux c b64chars 0

/-- `base64.b64encode` on a byte list: standard base64 with `=` padding. -/
def b64encode : List ℕ → List Char
  | [] => []
  | [b1] => [chr6 (b1 / 4), chr6 (b1 % 4 * 16), '=', '=']
  | [b1, b2] => [chr6 (b1 / 4), chr6 (b1 % 4 * 16 + b2 / 16), chr6 (b2 % 16 * 4), '=']
  | b1 :: b2 :: b3 :: rest =>
      chr6 (b1 / 4) :: chr6 (b1 % 4 * 16 + b2 / 16) ::
      chr6 (b2 % 16 * 4 + b3 / 64) :: chr6 (b3 % 64) :: b64encode rest

/-- Group-wise base64 decoding of an already-filtered character list. -/
def decodeGroups : List Char → Option (List ℕ)
  | [] => some []
  | c1 :: c2 :: c3 :: c4 :: rest =>
      match chrIndex c1, chrIndex c2 with
      | some i1, some i2 =>
          if c3 = '=' then
            if c4 = '=' ∧ rest = [] then some [i1 * 4 + i2 / 16] else none
          else
            match chrIndex c3 with
            | some i3 =>
                if c4 = '=' then
                  if rest = [] then
                    some [i1 * 4 + i2 / 16, i2 % 16 * 16 + i3 / 4]
                  else none
                else
                  match chrIndex c4 with
                  | some i4 =>
                      match decodeGroups rest with
                      | some bs =>
                          some ((i1 * 4 + i2 / 16) :: (i2 % 16 * 16 + i3 / 4) ::
                            (i3 % 4 * 64 + i4) :: bs)
                      | none => none
                  | none => none
            | none => none
      | _, _ => none
  | _ => none

/-- `base64.b64decode` with `validate=False`: characters outside the alphabet
and `=` are discarded, then the remaining length must be a multiple of 4
(otherwise `binascii.Error: Incorrect padding` is raised, i.e. `none`). -/
def b64decode (s : List Char) : Option (List ℕ) :=
  let cs := s.filter (fun c => decide (c ∈ b64chars ∨ c = '='))
  if cs.length % 4 = 0 then decodeGroups cs else none

/-- Python `str.split("$")`. -/
def splitDollar : List Char → List (List Char)
  | [] => [[]]
  | c :: rest =>
      if c = '$' then [] :: splitDollar rest
      else
        match splitDollar rest with
        | [] => [[c]]
        | g :: gs => (c :: g) :: gs

/-- ASCII whitespace recognizer for the `int()` model. -/
def isSpaceChar (c : Char) : Bool :=
  c = (' ') ∨ c = ('\t') ∨ c = ('\n') ∨ c = ('\r')

/-- Strip leading and trailing ASCII whitespace. -/
def stripSpaces (s : List Char) : List Char :=
  ((s.dropWhile isSpaceChar).reverse.dropWhile isSpaceChar).reverse

/-- Digit accumulator for the `int()` model; a single `_` may separate two
digits. -/
def digitsValAux : ℕ → List Char → Option ℕ
  | acc, [] => some acc
  | acc, [c] => if c.isDigit then some (acc * 10 + (c.toNat - 48)) else none
  | acc, c :: d :: rest =>
      if c.isDigit then digitsValAux (acc * 10 + (c.toNat - 48)) (d :: rest)
      else if c = '_' ∧ d.isDigit then digitsValAux acc (d :: rest)
      else none

/-- Digit-string value; the first character must be a digit. -/
def digitsVal : List Char → Option ℕ
  | [] => none
  | c :: rest => if c.isDigit then digitsValAux 0 (c :: rest) else none

/-- Model of Python `int(str)`: strip ASCII whitespace, optional sign, then a
digit string with optional single underscores between digits.  (Non-ASCII
digits are not modelled.) -/
def parseInt (s : List Char) : Option ℤ :=
  match stripSpaces s with
  | [] => none
  | c :: rest =>
      if c = '+' then (digitsVal rest).map (fun n => (n : ℤ))
      else if c = '-' then (digitsVal rest).map (fun n => -(n : ℤ))
      else (digitsVal (c :: rest)).map (fun n => (n : ℤ))

/-- `hash_password` from the source, with the salt generated by
`os.urandom(16)` passed explicitly and the key-derivation primitive `prf`
abstracted: the stored string is
`"pbkdf2_sha256$" + str(130000) + "$" + b64(salt) + "$" + b64(dk)`. -/
def hash_password (prf : List Char → List ℕ → ℤ → List ℕ)
    (password : List Char) (salt : List ℕ) : List Char :=
  ("pbkdf2_sha256").toList ++ '$' :: ((Nat.repr 130000).toList) ++
    '$' :: b64encode salt ++ '$' :: b64encode (prf password salt 130000)

/-- The body of `verify_password` after `stored.split("$")`.  A wrong number
of fields (tuple-unpacking `ValueError`), a wrong algorithm tag
(`AssertionError`) or an unparsable iteration count (`ValueError` from
`int`) are caught by the `try`/`except` and yield `False`.  The base64
decoding of the salt happens inside `_pbkdf2`, *outside* the `try`: its
failure escapes as an uncaught exception (`none`).  `hmac.compare_digest`
is string equality. -/
def verifyParts (prf : List Char → List ℕ → ℤ → List ℕ)
    (password : List Char) : List (List Char) → Option Bool
  | [algo, it_s, salt_b64, dk_b64] =>
      if algo = ("pbkdf2_sha256").toList then
        match parseInt it_s with
        | some it =>
            match b64decode salt_b64 with
            | some salt =>
                some (decide (b64encode (prf password salt it) = dk_b64))
            | none => none
        | none => some false
      else some false
  | _ => some false

/-- `verify_password` from the source, with the key-derivation primitive
abstracted as `prf`. -/
def verify_password (prf : List Char → List ℕ → ℤ → List ℕ)
    (password stored : List Char) : Option Bool :=
  verifyParts prf password (splitDollar stored)

/-- The success condition of `verify_password`'s `try` block: the stored
string splits into exactly four `$`-separated fields, the algorithm tag
matches, and the iteration count parses as an integer. -/
def tryParseSucceeds (stored : List Char) : Bool :=
  match splitDollar stored with
  | [algo, it_s, _, _] =>
      decide (algo = ("pbkdf2_sha256").toList) && (parseInt it_s).isSome
  | _ => false

/-! ## Generic list helpers -/

/-- Under a nodup key column, at most one row matches any key. -/
theorem filter_key_length_le_one {α : Type} (key : α → String) (t : String) :
    ∀ l : List α, (l.map key).Nodup →
      (l.filter (fun r => decide (key r = t))).length ≤ 1 := by
  intro l
  induction l with
  | nil => intro _; simp
  | cons r tl ih =>
      intro hnd
      rw [List.map_cons, List.nodup_cons] at hnd
      by_cases hr : key r = t
      · have htl : tl.filter (fun x => decide (key x = t)) = [] := by
          rw [List.filter_eq_nil_iff]
          intro x hx
          simp only [decide_eq_true_eq]
          intro hxt
          apply hnd.1
          rw [hr, ← hxt]
          exact List.mem_map_of_mem key hx
        simp [List.filter_cons, hr, htl]
      · simpa [List.filter_cons, hr] using ih hnd.2

/-- If membership of a row in the filtered list is equivalent to its index
being at most `j`, the filter is the `(j+1)`-prefix. -/
theorem filter_eq_take_of_iff {α : Type} (p : α → Bool) :
    ∀ (L : List α) (j : ℕ), j < L.length →
      (∀ i (hi : i < L.length), p (L.get ⟨i, hi⟩) = true ↔ i ≤ j) →
      L.filter p = L.take (j + 1) := by
  intro L
  induction L with
  | nil => intro j hj _; simp at hj
  | cons a tl ih =>
      intro j hj hiff
      have hpa : p a = true := (hiff 0 (by simp)).mpr (Nat.zero_le j)
      cases j with
      | zero =>
          have htl : tl.filter p = [] := by
            rw [List.filter_eq_nil_iff]
            intro x hx
            obtain ⟨⟨i, hi⟩, rfl⟩ := List.mem_iff_get.mp hx
            intro hpx
            have := (hiff (i + 1) (by simpa using Nat.succ_lt_succ hi)).mp (by simpa using hpx)
            omega
          simp [List.filter_cons, hpa, htl]
      | succ s =>
          have := ih s (by simpa using Nat.lt_of_succ_lt_succ hj)
            (fun i hi => by
              simpa using hiff (i + 1) (by simpa using Nat.succ_lt_succ hi))
          simp [List.filter_cons, hpa, List.take_succ_cons, this]

/-- The last element of the `(j+1)`-prefix is the element at index `j`. -/
theorem getLast?_take_succ {α : Type} (L : List α) (j : ℕ) (h : j < L.length) :
    (L.take (j + 1)).getLast? = some (L.get ⟨j, h⟩) := by
  rw [List.getLast?_eq_getElem?, List.length_take]
  have hmin : min (j + 1) L.length = j + 1 := by omega
  rw [hmin]
  simp only [Nat.add_sub_cancel]
  rw [List.getElem?_take_of_succ, List.getElem?_eq_getElem h]
  rfl

/-! ## Structure of the amortization loop -/

theorem amortLoop_length (payment r : ℚ) :
    ∀ (rem : ℕ) (bal : ℚ) (cur : ℤ) (k : ℕ),
      (amortLoop payment r rem bal cur k).length = rem := by
  intro rem
  induction rem with
  | zero => intro bal cur k; rfl
  | succ s ih => intro bal cur k; simp [amortLoop, ih]

theorem amortLoop_getElem (payment r : ℚ) :
    ∀ (rem : ℕ) (bal : ℚ) (cur : ℤ) (k j : ℕ), j < rem →
      ∃ row : SchedRow,
        (amortLoop payment r rem bal cur k)[j]? = some row ∧
        row.installment = k + j ∧ row.dueDate = cur + 30 * j := by
  intro rem
  induction rem with
  | zero => intro bal cur k j hj; omega
  | succ s ih =>
      intro bal cur k j hj
      cases j with
      | zero =>
          refine ⟨⟨k, cur, payment, bal * r, payment - bal * r,
            max 0 (bal - (payment - bal * r))⟩, ?_, rfl, by simp⟩
          simp [amortLoop]
      | succ i =>
          obtain ⟨row, hrow, hinst, hdue⟩ :=
            ih (max 0 (bal - (payment - bal * r))) (cur + 30) (k + 1) i
              (Nat.lt_of_succ_lt_succ hj)
          refine ⟨row, ?_, by omega, by push_cast at hdue ⊢; linarith⟩
          rw [amortLoop, List.getElem?_cons_succ]
          exact hrow

/-! ## Claim theorems -/

/-- C1: at loan creation the persisted totals follow the flat-rate formula:
the stored `total_repayment` is `principal * (1 + rate/100)`, the stored
`monthly_installment` is `total_repayment / term`, and hence the monthly
installment times the term equals the total repayment exactly. -/
theorem loan_flat_rate_totals (db : Db) (loan_amount : ℚ) (loan_period : ℕ)
    (loan_rate : ℚ) (loan_date : ℤ) (loan_txn_id member_id : String) (db' : Db)
    (hm : 1 ≤ loan_period)
    (hok : submit_loan db loan_amount loan_period loan_rate loan_date
      loan_txn_id member_id = Except.ok db') :
    ∃ row : LoanRow,
      db'.loans = db.loans ++ [row] ∧
      row.total_repayment = loan_amount * (1 + loan_rate / 100) ∧
      row.monthly_installment = row.total_repayment / (loan_period : ℚ) ∧
      row.monthly_installment * (loan_period : ℚ) = row.total_repayment := by
  simp only [submit_loan] at hok
  split_ifs at hok with h1 h2
  rw [Except.ok.injEq] at hok
  subst hok
  refine ⟨_, rfl, rfl, rfl, ?_⟩
  have hper : (loan_period : ℚ) ≠ 0 :=
    Nat.cast_ne_zero.mpr (by omega)
  exact div_mul_cancel₀ _ hper

/-- C1 witness: the spec's example scenario (principal 100000, rate 12%,
term 12): flat total 112000, monthly installment 28000/3 = 9333.33…. -/
theorem loan_flat_rate_totals_witness :
    ∃ row : LoanRow,
      (Db.mk [("M1")] []
        [LoanRow.mk 100000 12 (100000 * (1 + 12 / 100))
          (100000 * (1 + 12 / 100) / ((12 : ℕ) : ℚ)) 0 ("L1") ("M1") 12]).loans =
        (Db.mk [("M1")] [] []).loans ++ [row] ∧
      row.total_repayment = 100000 * (1 + 12 / 100) ∧
      row.monthly_installment = row.total_repayment / ((12 : ℕ) : ℚ) ∧
      row.monthly_installment * ((12 : ℕ) : ℚ) = row.total_repayment :=
  loan_flat_rate_totals (Db.mk [("M1")] [] []) 100000 12 12 0 ("L1") ("M1")
    (Db.mk [("M1")] []
      [LoanRow.mk 100000 12 (100000 * (1 + 12 / 100))
        (100000 * (1 + 12 / 100) / ((12 : ℕ) : ℚ)) 0 ("L1") ("M1") 12])
    (by decide) (by rfl)

/-- C6: when the annual rate is `≤ 0`, `compound_amount` returns the
principal exactly, so the accrued interest reported (`A - P`) is zero. -/
theorem compound_amount_nonpositive_rate (P annual_rate_pct : ℝ) (d0 d1 : ℤ)
    (freq : String) (h : annual_rate_pct ≤ 0) :
    compound_amount P annual_rate_pct d0 d1 freq = P ∧
    compound_amount P annual_rate_pct d0 d1 freq - P = 0 := by
  unfold compound_amount
  rw [if_pos h]
  exact ⟨rfl, sub_self P⟩

/-- C6 witness: a 50000 deposit at rate 0 accrues nothing over 100 days of
daily compounding. -/
theorem compound_amount_nonpositive_rate_witness :
    compound_amount 50000 0 0 100 ("Daily") = 50000 ∧
    compound_amount 50000 0 0 100 ("Daily") - 50000 = 0 :=
  compound_amount_nonpositive_rate 50000 0 0 100 ("Daily") (le_refl 0)

/-- C7: a non-positive amount or an empty transaction id makes both the
deposit handler and the loan handler report the validation error and persist
nothing (no `ok` state is ever produced). -/
theorem submit_rejects_invalid (db : Db) (amount : ℚ) (d : ℤ)
    (txn mid : String) (rate : ℚ) (period : ℕ) (loan_rate : ℚ)
    (h : amount ≤ 0 ∨ txn = ("")) :
    submit_deposit db amount d txn mid rate =
      Except.error ("Amount must be > 0 and Transaction ID is required.") ∧
    (∀ db' : Db, submit_deposit db amount d txn mid rate ≠ Except.ok db') ∧
    submit_loan db amount period loan_rate d txn mid =
      Except.error ("Amount must be > 0 and Txn ID is required.") ∧
    (∀ db' : Db, submit_loan db amount period loan_rate d txn mid ≠
      Except.ok db') := by
  unfold submit_deposit submit_loan
  rw [if_pos h, if_pos h]
  exact ⟨rfl, fun db' h' => Except.noConfusion h', rfl,
    fun db' h' => Except.noConfusion h'⟩

/-- C7 witness: a deposit/loan of amount −5 with transaction id `T1` is
rejected by both handlers and nothing is persisted. -/
theorem submit_rejects_invalid_witness :
    submit_deposit (Db.mk [("M1")] [] []) (-5) 0 ("T1") ("M1") 10 =
      Except.error ("Amount must be > 0 and Transaction ID is required.") ∧
    (∀ db' : Db, submit_deposit (Db.mk [("M1")] [] []) (-5) 0 ("T1") ("M1") 10 ≠
      Except.ok db') ∧
    submit_loan (Db.mk [("M1")] [] []) (-5) 12 12 0 ("T1") ("M1") =
      Except.error ("Amount must be > 0 and Txn ID is required.") ∧
    (∀ db' : Db, submit_loan (Db.mk [("M1")] [] []) (-5) 12 12 0 ("T1") ("M1") ≠
      Except.ok db') :=
  submit_rejects_invalid (Db.mk [("M1")] [] []) (-5) 0 ("T1") ("M1") 10 12 12
    (Or.inl (by decide))

/-- C8: under the schema's UNIQUE transaction-id constraints, delete-by-id on
savings or loans removes zero or exactly one row; the handler's outcome is
`deleted` exactly when a matching row existed (distinguished by the
affected-row count), and a zero-row deletion is the soft `notFound` warning,
not an error. -/
theorem delete_by_txn_semantics (db : Db) (txn ltxn : String)
    (hs : (db.savings.map (fun r => r.transaction_id)).Nodup)
    (hl : (db.loans.map (fun r => r.loan_transaction_id)).Nodup) :
    (∀ db' n fb, handle_delete_savings db txn = (db', n, fb) →
      (n = 0 ∨ n = 1) ∧ db'.savings.length + n = db.savings.length ∧
      (fb = DeleteFeedback.deleted ↔ ∃ r ∈ db.savings, r.transaction_id = txn) ∧
      (fb = DeleteFeedback.notFound ↔ n = 0)) ∧
    (∀ db' n fb, handle_delete_loan db ltxn = (db', n, fb) →
      (n = 0 ∨ n = 1) ∧ db'.loans.length + n = db.loans.length ∧
      (fb = DeleteFeedback.deleted ↔ ∃ r ∈ db.loans, r.loan_transaction_id = ltxn) ∧
      (fb = DeleteFeedback.notFound ↔ n = 0)) := by
  constructor
  · intro db' n fb h
    simp only [handle_delete_savings, Prod.mk.injEq] at h
    obtain ⟨hdb, hn, hfb⟩ := h
    have hsplit := db.savings.length_eq_length_filter_add
      (fun r => decide (r.transaction_id = txn))
    have hmatch : (db.savings.filter (fun r => decide (r.transaction_id = txn))).length ≤ 1 :=
      filter_key_length_le_one (fun r => r.transaction_id) txn db.savings hs
    have hnot : (db.savings.filter (fun r => decide (¬ r.transaction_id = txn))) =
        db.savings.filter (fun r => ! decide (r.transaction_id = txn)) := by
      simp only [decide_not]
    have hn' : n = (db.savings.filter (fun r => decide (r.transaction_id = txn))).length := by
      rw [← hn, hnot]; omega
    have hlen : db'.savings.length + n = db.savings.length := by
      rw [← hdb]; simp only []; rw [hnot, hn']; omega
    have hexists : n ≠ 0 ↔ ∃ r ∈ db.savings, r.transaction_id = txn := by
      rw [hn']
      constructor
      · intro hne
        have : db.savings.filter (fun r => decide (r.transaction_id = txn)) ≠ [] := by
          intro hc; rw [hc] at hne; exact hne rfl
        rw [Ne, List.filter_eq_nil_iff] at this
        push_neg at this
        obtain ⟨r, hr, hp⟩ := this
        exact ⟨r, hr, by simpa using hp⟩
      · intro ⟨r, hr, hp⟩
        have : r ∈ db.savings.filter (fun r => decide (r.transaction_id = txn)) :=
          List.mem_filter.mpr ⟨hr, by simpa using hp⟩
        intro hc
        rw [List.length_eq_zero] at hc
        rw [hc] at this
        exact List.not_mem_nil r this
    rw [hn] at hfb
    refine ⟨by omega, hlen, ?_, ?_⟩
    · rw [← hfb, ← hexists]
      by_cases hz : n = 0 <;> simp [hz]
    · rw [← hfb]
      by_cases hz : n = 0 <;> simp [hz]
  · intro db' n fb h
    simp only [handle_delete_loan, Prod.mk.injEq] at h
    obtain ⟨hdb, hn, hfb⟩ := h
    have hsplit := db.loans.length_eq_length_filter_add
      (fun r => decide (r.loan_transaction_id = ltxn))
    have hmatch : (db.loans.filter (fun r => decide (r.loan_transaction_id = ltxn))).length ≤ 1 :=
      filter_key_length_le_one (fun r => r.loan_transaction_id) ltxn db.loans hl
    have hnot : (db.loans.filter (fun r => decide (¬ r.loan_transaction_id = ltxn))) =
        db.loans.filter (fun r => ! decide (r.loan_transaction_id = ltxn)) := by
      simp only [decide_not]
    have hn' : n = (db.loans.filter (fun r => decide (r.loan_transaction_id = ltxn))).length := by
      rw [← hn, hnot]; omega
    have hlen : db'.loans.length + n = db.loans.length := by
      rw [← hdb]; simp only []; rw [hnot, hn']; omega
    have hexists : n ≠ 0 ↔ ∃ r ∈ db.loans, r.loan_transaction_id = ltxn := by
      rw [hn']
      constructor
      · intro hne
        have : db.loans.filter (fun r => decide (r.loan_transaction_id = ltxn)) ≠ [] := by
          intro hc; rw [hc] at hne; exact hne rfl
        rw [Ne, List.filter_eq_nil_iff] at this
        push_neg at this
        obtain ⟨r, hr, hp⟩ := this
        exact ⟨r, hr, by simpa using hp⟩
      · intro ⟨r, hr, hp⟩
        have : r ∈ db.loans.filter (fun r => decide (r.loan_transaction_id = ltxn)) :=
          List.mem_filter.mpr ⟨hr, by simpa using hp⟩
        intro hc
        rw [List.length_eq_zero] at hc
        rw [hc] at this
        exact List.not_mem_nil r this
    rw [hn] at hfb
    refine ⟨by omega, hlen, ?_, ?_⟩
    · rw [← hfb, ← hexists]
      by_cases hz : n = 0 <;> simp [hz]
    · rw [← hfb]
      by_cases hz : n = 0 <;> simp [hz]

/-- C8 witness: deleting transaction `T1` from a store holding exactly one
matching savings row removes one row and reports `deleted`. -/
theorem delete_by_txn_semantics_witness :
    (1 = 0 ∨ 1 = 1) ∧
    (Db.mk [("M1")] []
      [LoanRow.mk 100000 12 112000 9333 0 ("L1") ("M1") 12]).savings.length + 1 =
      (Db.mk [("M1")] [SavingsRow.mk 100 0 ("T1") ("M1") 10]
        [LoanRow.mk 100000 12 112000 9333 0 ("L1") ("M1") 12]).savings.length ∧
    (DeleteFeedback.deleted = DeleteFeedback.deleted ↔
      ∃ r ∈ (Db.mk [("M1")] [SavingsRow.mk 100 0 ("T1") ("M1") 10]
        [LoanRow.mk 100000 12 112000 9333 0 ("L1") ("M1") 12]).savings,
        r.transaction_id = ("T1")) ∧
    (DeleteFeedback.deleted = DeleteFeedback.notFound ↔ 1 = 0) :=
  (delete_by_txn_semantics
    (Db.mk [("M1")] [SavingsRow.mk 100 0 ("T1") ("M1") 10]
      [LoanRow.mk 100000 12 112000 9333 0 ("L1") ("M1") 12])
    ("T1") ("LX") (by decide) (by decide)).1
    (Db.mk [("M1")] []
      [LoanRow.mk 100000 12 112000 9333 0 ("L1") ("M1") 12])
    1 DeleteFeedback.deleted (by decide)

/-- C3: the schedule for a term of `m ≥ 1` months has exactly `m` ordered
installments numbered `1..m`; installment `j+1` is due at the start date
advanced by `30*j` days, so consecutive due dates differ by exactly 30
days. -/
theorem amortization_schedule_rows (P rate : ℚ) (m : ℕ) (d0 : ℤ)
    (hm : 1 ≤ m) :
    (amortization_schedule P rate m d0).length = m ∧
    (∀ j (h : j < (amortization_schedule P rate m d0).length),
      ((amortization_schedule P rate m d0).get ⟨j, h⟩).installment = j + 1 ∧
      ((amortization_schedule P rate m d0).get ⟨j, h⟩).dueDate = d0 + 30 * j) ∧
    (∀ j (h : j + 1 < (amortization_schedule P rate m d0).length),
      ((amortization_schedule P rate m d0).get
          ⟨j + 1, h⟩).dueDate -
        ((amortization_schedule P rate m d0).get
          ⟨j, Nat.lt_of_succ_lt h⟩).dueDate = 30) := by
  have hlen : (amortization_schedule P rate m d0).length = m := by
    unfold amortization_schedule
    exact amortLoop_length _ _ m P d0 1
  have hget : ∀ j (h : j < (amortization_schedule P rate m d0).length),
      ((amortization_schedule P rate m d0).get ⟨j, h⟩).installment = j + 1 ∧
      ((amortization_schedule P rate m d0).get ⟨j, h⟩).dueDate = d0 + 30 * j := by
    intro j h
    have hj : j < m := by omega
    obtain ⟨row, hrow, hinst, hdue⟩ := amortLoop_getElem
      (if (rate / 100 / 12 : ℚ) = 0 then P / (m : ℚ)
        else P * (rate / 100 / 12 * (1 + rate / 100 / 12) ^ m) /
          ((1 + rate / 100 / 12) ^ m - 1))
      (rate / 100 / 12) m P d0 1 j hj
    have : (amortization_schedule P rate m d0)[j]? = some row := hrow
    rw [List.getElem?_eq_getElem (by omega)] at this
    rw [Option.some.injEq] at this
    have hrq : (amortization_schedule P rate m d0).get ⟨j, h⟩ = row := by
      rw [← this]; rfl
    rw [hrq, hinst, hdue]
    exact ⟨by omega, rfl⟩
  refine ⟨hlen, hget, ?_⟩
  intro j h
  have h1 := (hget (j + 1) h).2
  have h2 := (hget j (Nat.lt_of_succ_lt h)).2
  rw [h1, h2]
  push_cast
  ring

/-- C3 witness: the 12-month schedule of the spec's example scenario has 12
rows; its first row is installment 1 due on the start date and each later
row falls 30 days after the previous one. -/
theorem amortization_schedule_rows_witness :
    (amortization_schedule 100000 12 12 0).length = 12 :=
  (amortization_schedule_rows 100000 12 12 0 (by decide)).1

/-- Length of the generated schedule. -/
theorem sched_length (P rate : ℚ) (m : ℕ) (d0 : ℤ) :
    (amortization_schedule P rate m d0).length = m := by
  unfold amortization_schedule
  exact amortLoop_length _ _ m P d0 1

/-- Due date of row `j` of the generated schedule. -/
theorem sched_dueDate (P rate : ℚ) (m : ℕ) (d0 : ℤ) :
    ∀ j (h : j < (amortization_schedule P rate m d0).length),
      ((amortization_schedule P rate m d0).get ⟨j, h⟩).dueDate = d0 + 30 * j := by
  intro j h
  have hj : j < m := by
    have := sched_length P rate m d0
    omega
  obtain ⟨row, hrow, _, hdue⟩ := amortLoop_getElem
    (if (rate / 100 / 12 : ℚ) = 0 then P / (m : ℚ)
      else P * (rate / 100 / 12 * (1 + rate / 100 / 12) ^ m) /
        ((1 + rate / 100 / 12) ^ m - 1))
    (rate / 100 / 12) m P d0 1 j hj
  have hsome : (amortization_schedule P rate m d0)[j]? = some row := hrow
  rw [List.getElem?_eq_getElem (by omega), Option.some.injEq] at hsome
  have hrq : (amortization_schedule P rate m d0).get ⟨j, h⟩ = row := by
    rw [← hsome]; rfl
  rw [hrq, hdue]

/-- C4: the derived outstanding balance as of date `X` is the post-payment
balance of the last schedule installment due on or before `X`; when `X`
precedes the first due date it is the original principal. -/
theorem outstanding_balance_spec (P rate : ℚ) (m : ℕ) (d0 : ℤ)
    (hm : 1 ≤ m) (X : ℤ) :
    (X < d0 → outstanding_balance (amortization_schedule P rate m d0) X P = P) ∧
    (∀ j (hj : j < (amortization_schedule P rate m d0).length),
      ((amortization_schedule P rate m d0).get ⟨j, hj⟩).dueDate ≤ X →
      (∀ i (hi : i < (amortization_schedule P rate m d0).length),
        ((amortization_schedule P rate m d0).get ⟨i, hi⟩).dueDate ≤ X → i ≤ j) →
      outstanding_balance (amortization_schedule P rate m d0) X P =
        ((amortization_schedule P rate m d0).get ⟨j, hj⟩).balance) := by
  constructor
  · intro hX
    have hfil : (amortization_schedule P rate m d0).filter
        (fun row => decide (row.dueDate ≤ X)) = [] := by
      rw [List.filter_eq_nil_iff]
      intro row hrow
      obtain ⟨⟨i, hi⟩, rfl⟩ := List.mem_iff_get.mp hrow
      rw [sched_dueDate P rate m d0 i hi]
      simp only [decide_eq_true_eq]
      omega
    unfold outstanding_balance
    rw [hfil]
    rfl
  · intro j hj hdue hlast
    have hfil : (amortization_schedule P rate m d0).filter
        (fun row => decide (row.dueDate ≤ X)) =
        (amortization_schedule P rate m d0).take (j + 1) := by
      apply filter_eq_take_of_iff _ _ j hj
      intro i hi
      simp only [decide_eq_true_eq]
      constructor
      · intro hle
        exact hlast i hi hle
      · intro hij
        rw [sched_dueDate P rate m d0 i hi]
        rw [sched_dueDate P rate m d0 j hj] at hdue
        have : (30 : ℤ) * i ≤ 30 * j := by
          apply mul_le_mul_of_nonneg_left _ (by norm_num)
          exact_mod_cast hij
        omega
    unfold outstanding_balance
    rw [hfil, getLast?_take_succ _ j hj]

/-- C4 witness: one day before the start date no installment is due, so the
outstanding balance is the original principal. -/
theorem outstanding_balance_spec_witness :
    outstanding_balance (amortization_schedule 100000 12 12 0) (-1) 100000 =
      100000 :=
  (outstanding_balance_spec 100000 12 12 0 (by decide) (-1)).1 (by decide)

/-- Telescoping sum of the principal portions of the loop, for any balance
function `B` satisfying the loop's recurrence without hitting the zero
clamp. -/
theorem amortLoop_principal_sum (payment r : ℚ) (B : ℕ → ℚ) (mtot : ℕ)
    (hstep : ∀ j, j < mtot → B (j + 1) = (1 + r) * B j - payment ∧ 0 ≤ B (j + 1)) :
    ∀ (rem j : ℕ) (cur : ℤ) (k : ℕ), j + rem ≤ mtot →
      ((amortLoop payment r rem (B j) cur k).map (fun row => row.principal)).sum
        = B j - B (j + rem) := by
  intro rem
  induction rem with
  | zero => intro j cur k h; simp [amortLoop]
  | succ s ih =>
      intro j cur k h
      obtain ⟨heq, hpos⟩ := hstep j (by omega)
      have hbal : max 0 (B j - (payment - B j * r)) = B (j + 1) := by
        have hb : B j - (payment - B j * r) = B (j + 1) := by linear_combination -heq
        rw [hb]
        exact max_eq_right hpos
      simp only [amortLoop]
      rw [hbal, List.map_cons, List.sum_cons, ih (j + 1) (cur + 30) (k + 1) (by omega)]
      have hidx : j + 1 + s = j + (s + 1) := by omega
      rw [hidx]
      linear_combination heq

/-- Balance stored on row `i` of the loop, for the same balance function. -/
theorem amortLoop_row_balance (payment r : ℚ) (B : ℕ → ℚ) (mtot : ℕ)
    (hstep : ∀ j, j < mtot → B (j + 1) = (1 + r) * B j - payment ∧ 0 ≤ B (j + 1)) :
    ∀ (rem j : ℕ) (cur : ℤ) (k : ℕ), j + rem ≤ mtot → ∀ i, i < rem →
      ∃ row : SchedRow, (amortLoop payment r rem (B j) cur k)[i]? = some row ∧
        row.balance = B (j + i + 1) := by
  intro rem
  induction rem with
  | zero => intro j cur k h i hi; omega
  | succ s ih =>
      intro j cur k h i hi
      obtain ⟨heq, hpos⟩ := hstep j (by omega)
      have hbal : max 0 (B j - (payment - B j * r)) = B (j + 1) := by
        have hb : B j - (payment - B j * r) = B (j + 1) := by linear_combination -heq
        rw [hb]
        exact max_eq_right hpos
      cases i with
      | zero =>
          refine ⟨⟨k, cur, payment, B j * r, payment - B j * r, B (j + 1)⟩, ?_, by simp⟩
          simp only [amortLoop]
          rw [hbal]
          exact List.getElem?_cons_zero
      | succ i' =>
          have hrec : (amortLoop payment r (s + 1) (B j) cur k)[i' + 1]? =
              (amortLoop payment r s (B (j + 1)) (cur + 30) (k + 1))[i']? := by
            simp only [amortLoop]
            rw [hbal]
            exact List.getElem?_cons_succ
          obtain ⟨row, hrow, hb⟩ := ih (j + 1) (cur + 30) (k + 1) (by omega) i' (by omega)
          refine ⟨row, ?_, ?_⟩
          · rw [hrec]; exact hrow
          · rw [hb]
            congr 1
            omega

/-- C2: for a positive principal, nonnegative annual rate and a term of
`m ≥ 1` whole months, the schedule's principal portions sum to the original
principal (well within the 1-unit rounding tolerance) and the final
installment's post-payment balance is exactly 0. -/
theorem amortization_principal_sum_final_balance (P rate : ℚ) (m : ℕ)
    (d0 : ℤ) (hP : 0 < P) (hrate : 0 ≤ rate) (hm : 1 ≤ m) :
    |((amortization_schedule P rate m d0).map (fun row => row.principal)).sum
        - P| ≤ 1 ∧
    ((amortization_schedule P rate m d0).getLast?).map (fun row => row.balance)
      = some 0 := by
  suffices h : ∃ B : ℕ → ℚ,
      (∀ j, j < m →
        B (j + 1) = (1 + rate / 100 / 12) * B j -
          (if (rate / 100 / 12 : ℚ) = 0 then P / (m : ℚ)
            else P * (rate / 100 / 12 * (1 + rate / 100 / 12) ^ m) /
              ((1 + rate / 100 / 12) ^ m - 1)) ∧ 0 ≤ B (j + 1)) ∧
      B 0 = P ∧ B m = 0 by
    obtain ⟨B, hstep, hB0, hBm⟩ := h
    have hsched : amortization_schedule P rate m d0 =
        amortLoop
          (if (rate / 100 / 12 : ℚ) = 0 then P / (m : ℚ)
            else P * (rate / 100 / 12 * (1 + rate / 100 / 12) ^ m) /
              ((1 + rate / 100 / 12) ^ m - 1))
          (rate / 100 / 12) m P d0 1 := rfl
    have hsum := amortLoop_principal_sum _ _ B m hstep m 0 d0 1 (by omega)
    rw [hB0] at hsum
    simp only [Nat.zero_add] at hsum
    rw [hBm] at hsum
    obtain ⟨lastRow, hlr, hlb⟩ :=
      amortLoop_row_balance _ _ B m hstep m 0 d0 1 (by omega) (m - 1) (by omega)
    rw [hB0] at hlr
    have hidx : 0 + (m - 1) + 1 = m := by omega
    rw [hidx, hBm] at hlb
    constructor
    · rw [hsched, hsum]
      simp
    · rw [hsched, List.getLast?_eq_getElem?, amortLoop_length, hlr]
      simp [hlb]
  rcases eq_or_lt_of_le hrate with hzero | hpos
  · refine ⟨fun j => P * ((m : ℚ) - j) / m, ?_, ?_, ?_⟩
    · intro j hj
      rw [if_pos (show (rate / 100 / 12 : ℚ) = 0 by rw [← hzero]; norm_num)]
      have hm0 : ((m : ℚ)) ≠ 0 := Nat.cast_ne_zero.mpr (by omega)
      constructor
      · rw [← hzero]
        push_cast
        field_simp
        ring
      · apply div_nonneg _ (Nat.cast_nonneg m)
        apply mul_nonneg hP.le
        have hcast : ((j : ℚ) + 1) ≤ (m : ℚ) := by exact_mod_cast hj
        push_cast
        linarith
    · have hm0 : ((m : ℚ)) ≠ 0 := Nat.cast_ne_zero.mpr (by omega)
      push_cast
      rw [sub_zero, mul_div_assoc, div_self hm0, mul_one]
    · push_cast
      rw [sub_self, mul_zero, zero_div]
  · have hr0 : 0 < rate / 100 / 12 := by positivity
    set r0 := rate / 100 / 12 with hr0def
    have hq1 : 1 < 1 + r0 := by linarith
    have hD : 0 < (1 + r0) ^ m - 1 := by
      rw [sub_pos]
      exact one_lt_pow₀ hq1 (by omega)
    refine ⟨fun j => P * ((1 + r0) ^ m - (1 + r0) ^ j) /
      ((1 + r0) ^ m - 1), ?_, ?_, ?_⟩
    · intro j hj
      rw [if_neg (ne_of_gt hr0)]
      constructor
      · show P * ((1 + r0) ^ m - (1 + r0) ^ (j + 1)) / ((1 + r0) ^ m - 1) =
          (1 + r0) * (P * ((1 + r0) ^ m - (1 + r0) ^ j) / ((1 + r0) ^ m - 1)) -
          P * (r0 * (1 + r0) ^ m) / ((1 + r0) ^ m - 1)
        field_simp
        ring
      · apply div_nonneg _ hD.le
        apply mul_nonneg hP.le
        rw [sub_nonneg]
        exact pow_le_pow_right₀ hq1.le (by omega)
    · show P * ((1 + r0) ^ m - (1 + r0) ^ 0) / ((1 + r0) ^ m - 1) = P
      rw [pow_zero, mul_div_assoc, div_self hD.ne', mul_one]
    · show P * ((1 + r0) ^ m - (1 + r0) ^ m) / ((1 + r0) ^ m - 1) = 0
      rw [sub_self, mul_zero, zero_div]

/-- C2 witness: the spec's example scenario (principal 100000, rate 12%,
12 months): principal portions sum to 100000 within tolerance 1 and the
final balance is exactly 0. -/
theorem amortization_principal_sum_final_balance_witness :
    |((amortization_schedule 100000 12 12 0).map
        (fun row => row.principal)).sum - 100000| ≤ 1 ∧
    ((amortization_schedule 100000 12 12 0).getLast?).map
        (fun row => row.balance) = some 0 :=
  amortization_principal_sum_final_balance 100000 12 12 0 (by decide)
    (by decide) (by decide)

/-- C5: for a positive principal and rate, daily compounding over a span
(start ≤ end) yields at least the monthly-compounded value. -/
theorem compound_daily_ge_monthly (P r : ℝ) (d0 d1 : ℤ)
    (hP : 0 < P) (hr : 0 < r) (hd : d0 ≤ d1) :
    compound_amount P r d0 d1 ("Monthly") ≤ compound_amount P r d0 d1 ("Daily") := by
  unfold compound_amount
  rw [if_neg (not_le.mpr hr), if_neg (not_le.mpr hr)]
  rw [if_neg (by decide : ¬ ("Monthly" : String) = ("Daily"))]
  rw [if_pos (rfl : ("Daily" : String) = ("Daily"))]
  have ht : 0 ≤ years_between d0 d1 := by
    unfold years_between
    apply div_nonneg _ (by norm_num)
    have : (0 : ℤ) ≤ d1 - d0 := by omega
    exact_mod_cast this
  have hb0 : (0 : ℝ) ≤ 1 + r / 100 / 12 := by positivity
  have ha0 : (0 : ℝ) ≤ 1 + r / 100 / 365 := by positivity
  have hbern : 1 + r / 100 / 12 ≤ (1 + r / 100 / 365) ^ ((365 : ℝ) / 12) := by
    have h := one_add_mul_self_le_rpow_one_add
      (le_trans (by norm_num : (-1 : ℝ) ≤ 0) (by positivity : (0 : ℝ) ≤ r / 100 / 365))
      (show (1 : ℝ) ≤ (365 : ℝ) / 12 by norm_num)
    have hx : (365 : ℝ) / 12 * (r / 100 / 365) = r / 100 / 12 := by ring
    rw [hx] at h
    exact h
  have key : (1 + r / 100 / 12) ^ (12 : ℕ) ≤ (1 + r / 100 / 365) ^ (365 : ℕ) := by
    have h2 := pow_le_pow_left₀ hb0 hbern 12
    have h3 : ((1 + r / 100 / 365) ^ ((365 : ℝ) / 12)) ^ (12 : ℕ) =
        (1 + r / 100 / 365) ^ (365 : ℕ) := by
      rw [← Real.rpow_natCast ((1 + r / 100 / 365) ^ ((365 : ℝ) / 12)) 12,
        ← Real.rpow_mul ha0]
      norm_num
      rw [← Real.rpow_natCast (1 + r / 100 / 365) 365]
      norm_num
    rw [h3] at h2
    exact h2
  calc P * (1 + r / 100 / 12) ^ (12 * years_between d0 d1)
      = P * ((1 + r / 100 / 12) ^ (12 : ℕ)) ^ years_between d0 d1 := by
        rw [← Real.rpow_natCast (1 + r / 100 / 12) 12, ← Real.rpow_mul hb0]
        norm_num
    _ ≤ P * ((1 + r / 100 / 365) ^ (365 : ℕ)) ^ years_between d0 d1 := by
        apply mul_le_mul_of_nonneg_left _ hP.le
        exact Real.rpow_le_rpow (by positivity) key ht
    _ = P * (1 + r / 100 / 365) ^ (365 * years_between d0 d1) := by
        rw [← Real.rpow_natCast (1 + r / 100 / 365) 365, ← Real.rpow_mul ha0]
        norm_num

/-- C5 witness: principal 50000 at 10% over one year (ordinals 0 to 365):
daily-compounded value dominates the monthly one. -/
theorem compound_daily_ge_monthly_witness :
    compound_amount 50000 10 0 365 ("Monthly") ≤
      compound_amount 50000 10 0 365 ("Daily") :=
  compound_daily_ge_monthly 50000 10 0 365 (by norm_num) (by norm_num)
    (by decide)

/-! ## Split and base64 lemmas -/

theorem splitDollar_no_dollar :
    ∀ a : List Char, ('$') ∉ a → splitDollar a = [a] := by
  intro a
  induction a with
  | nil => intro _; rfl
  | cons c rest ih =>
      intro h
      have hc : ¬ c = '$' := fun hc => h (by simp [hc])
      have hrest := ih (fun hm => h (by simp [hm]))
      rw [splitDollar, if_neg hc, hrest]

theorem splitDollar_append :
    ∀ a rest : List Char, ('$') ∉ a →
      splitDollar (a ++ '$' :: rest) = a :: splitDollar rest := by
  intro a
  induction a with
  | nil =>
      intro rest _
      show splitDollar ('$' :: rest) = [] :: splitDollar rest
      rw [splitDollar, if_pos rfl]
  | cons c a' ih =>
      intro rest h
      have hc : ¬ c = '$' := fun hc => h (by simp [hc])
      have hrec := ih rest (fun hm => h (by simp [hm]))
      show splitDollar (c :: (a' ++ '$' :: rest)) = (c :: a') :: splitDollar rest
      rw [splitDollar, if_neg hc, hrec]

theorem chr6_mem_of_lt : ∀ i, i < 64 → chr6 i ∈ b64chars := by decide

theorem chr6_mem (i : ℕ) : chr6 i ∈ b64chars := by
  by_cases h : i < 64
  · exact chr6_mem_of_lt i h
  · unfold chr6
    rw [List.getD_eq_default]
    · decide
    · have : b64chars.length = 64 := by decide
      omega

theorem chrIndex_chr6 : ∀ i, i < 64 → chrIndex (chr6 i) = some i := by decide

theorem chr6_ne_pad : ∀ i, i < 64 → ¬ chr6 i = '=' := by decide

theorem b64encode_mem (bs : List ℕ) :
    ∀ c ∈ b64encode bs, c ∈ b64chars ∨ c = '=' :=
  match bs with
  | [] => by intro c hc; simp [b64encode] at hc
  | [b1] => by
      intro c hc
      simp only [b64encode, List.mem_cons, List.mem_singleton] at hc
      rcases hc with rfl | rfl | rfl | rfl | hc
      · exact Or.inl (chr6_mem _)
      · exact Or.inl (chr6_mem _)
      · exact Or.inr rfl
      · exact Or.inr rfl
      · simp at hc
  | [b1, b2] => by
      intro c hc
      simp only [b64encode, List.mem_cons, List.mem_singleton] at hc
      rcases hc with rfl | rfl | rfl | rfl | hc
      · exact Or.inl (chr6_mem _)
      · exact Or.inl (chr6_mem _)
      · exact Or.inl (chr6_mem _)
      · exact Or.inr rfl
      · simp at hc
  | b1 :: b2 :: b3 :: rest => by
      intro c hc
      simp only [b64encode, List.mem_cons] at hc
      rcases hc with rfl | rfl | rfl | rfl | hc
      · exact Or.inl (chr6_mem _)
      · exact Or.inl (chr6_mem _)
      · exact Or.inl (chr6_mem _)
      · exact Or.inl (chr6_mem _)
      · exact b64encode_mem rest c hc

theorem dollar_not_mem_b64encode (bs : List ℕ) : ('$') ∉ b64encode bs := by
  intro hc
  rcases b64encode_mem bs _ hc with hmem | heq
  · exact (by decide : ('$') ∉ b64chars) hmem
  · exact (by decide : ¬ ('$' : Char) = '=') heq

theorem b64encode_length_mod (bs : List ℕ) : (b64encode bs).length % 4 = 0 :=
  match bs with
  | [] => by simp [b64encode]
  | [b1] => by simp [b64encode]
  | [b1, b2] => by simp [b64encode]
  | b1 :: b2 :: b3 :: rest => by
      have ih := b64encode_length_mod rest
      simp only [b64encode, List.length_cons]
      omega

theorem decodeGroups_b64encode (bs : List ℕ) (h : ∀ b ∈ bs, b < 256) :
    decodeGroups (b64encode bs) = some bs :=
  match bs with
  | [] => rfl
  | [b1] => by
      have hb1 : b1 < 256 := h b1 (by simp)
      have h1 : chrIndex (chr6 (b1 / 4)) = some (b1 / 4) :=
        chrIndex_chr6 _ (by omega)
      have h2 : chrIndex (chr6 (b1 % 4 * 16)) = some (b1 % 4 * 16) :=
        chrIndex_chr6 _ (by omega)
      simp [b64encode, decodeGroups, h1, h2]
      omega
  | [b1, b2] => by
      have hb1 : b1 < 256 := h b1 (by simp)
      have hb2 : b2 < 256 := h b2 (by simp)
      have h1 : chrIndex (chr6 (b1 / 4)) = some (b1 / 4) :=
        chrIndex_chr6 _ (by omega)
      have h2 : chrIndex (chr6 (b1 % 4 * 16 + b2 / 16)) =
          some (b1 % 4 * 16 + b2 / 16) := chrIndex_chr6 _ (by omega)
      have h3 : chrIndex (chr6 (b2 % 16 * 4)) = some (b2 % 16 * 4) :=
        chrIndex_chr6 _ (by omega)
      have h3ne : ¬ chr6 (b2 % 16 * 4) = '=' := chr6_ne_pad _ (by omega)
      simp [b64encode, decodeGroups, h1, h2, h3, h3ne]
      omega
  | b1 :: b2 :: b3 :: rest => by
      have hb1 : b1 < 256 := h b1 (by simp)
      have hb2 : b2 < 256 := h b2 (by simp)
      have hb3 : b3 < 256 := h b3 (by simp)
      have ih := decodeGroups_b64encode rest
        (fun b hb => h b (by simp [hb]))
      have h1 : chrIndex (chr6 (b1 / 4)) = some (b1 / 4) :=
        chrIndex_chr6 _ (by omega)
      have h2 : chrIndex (chr6 (b1 % 4 * 16 + b2 / 16)) =
          some (b1 % 4 * 16 + b2 / 16) := chrIndex_chr6 _ (by omega)
      have h3 : chrIndex (chr6 (b2 % 16 * 4 + b3 / 64)) =
          some (b2 % 16 * 4 + b3 / 64) := chrIndex_chr6 _ (by omega)
      have h4 : chrIndex (chr6 (b3 % 64)) = some (b3 % 64) :=
        chrIndex_chr6 _ (by omega)
      have h3ne : ¬ chr6 (b2 % 16 * 4 + b3 / 64) = '=' :=
        chr6_ne_pad _ (by omega)
      have h4ne : ¬ chr6 (b3 % 64) = '=' := chr6_ne_pad _ (by omega)
      simp [b64encode, decodeGroups, h1, h2, h3, h4, h3ne, h4ne, ih]
      omega

theorem b64_filter_encode (bs : List ℕ) :
    (b64encode bs).filter (fun c => decide (c ∈ b64chars ∨ c = '=')) =
      b64encode bs := by
  rw [List.filter_eq_self]
  intro a ha
  simp only [decide_eq_true_eq]
  exact b64encode_mem bs a ha

theorem b64decode_b64encode (bs : List ℕ) (h : ∀ b ∈ bs, b < 256) :
    b64decode (b64encode bs) = some bs := by
  unfold b64decode
  rw [b64_filter_encode bs, if_pos (b64encode_length_mod bs)]
  exact decodeGroups_b64encode bs h

/-- C10: the password hashing round-trip — for any key-derivation primitive
`prf`, any password and any 16-byte salt, `verify_password` accepts the
string produced by `hash_password` for the same password. -/
theorem hash_password_roundtrip (prf : List Char → List ℕ → ℤ → List ℕ)
    (password : List Char) (salt : List ℕ) (hlen : salt.length = 16)
    (hbytes : ∀ b ∈ salt, b < 256) :
    verify_password prf password (hash_password prf password salt) =
      some true := by
  unfold verify_password hash_password
  have hint : parseInt ((Nat.repr 130000).toList) = some 130000 := by decide
  have hsplit : splitDollar (("pbkdf2_sha256").toList ++
      '$' :: ((Nat.repr 130000).toList) ++ '$' :: b64encode salt ++
      '$' :: b64encode (prf password salt 130000)) =
      [("pbkdf2_sha256").toList, (Nat.repr 130000).toList, b64encode salt,
        b64encode (prf password salt 130000)] := by
    simp only [List.append_assoc, List.cons_append]
    rw [splitDollar_append _ _ (by decide)]
    rw [splitDollar_append _ _ (by decide)]
    rw [splitDollar_append _ _ (dollar_not_mem_b64encode salt)]
    rw [splitDollar_no_dollar _ (dollar_not_mem_b64encode _)]
  rw [hsplit]
  simp only [verifyParts, if_pos rfl, hint, b64decode_b64encode salt hbytes]
  simp

/-- C10 witness: a concrete primitive, password and salt round-trip to a
successful verification. -/
theorem hash_password_roundtrip_witness :
    verify_password (fun _ _ _ => ([] : List ℕ)) (("pw").toList)
      (hash_password (fun _ _ _ => ([] : List ℕ)) (("pw").toList)
        [0, 1, 2, 3, 4, 5, 6, 7, 8, 9, 10, 11, 12, 13, 14, 15]) = some true :=
  hash_password_roundtrip (fun _ _ _ => ([] : List ℕ)) (("pw").toList)
    [0, 1, 2, 3, 4, 5, 6, 7, 8, 9, 10, 11, 12, 13, 14, 15]
    (by decide) (by decide)

/-- C9 (amended): `verify_password` maps failures of the `try`-block's
delimited-format parse — a number of `$`-separated fields other than four, a
wrong algorithm tag, or an unparsable iteration count — to `False` without
raising.  (Totality does not extend beyond the `try` block: see the
counterexample, where a well-formed header with an invalid base64 salt makes
the decode raise.) -/
theorem verify_password_parse_failure_false
    (prf : List Char → List ℕ → ℤ → List ℕ) (password stored : List Char)
    (h : tryParseSucceeds stored = false) :
    verify_password prf password stored = some false := by
  unfold verify_password
  unfold tryParseSucceeds at h
  rcases hsp : splitDollar stored with _ | ⟨a, _ | ⟨b, _ | ⟨c, _ | ⟨d, _ | ⟨e, t⟩⟩⟩⟩⟩
  · rfl
  · rfl
  · rfl
  · rfl
  · rw [hsp] at h
    have h' : (decide (a = ("pbkdf2_sha256").toList) && (parseInt b).isSome) =
        false := h
    show (if a = ("pbkdf2_sha256").toList then
        (match parseInt b with
          | some it =>
              (match b64decode c with
                | some salt =>
                    some (decide (b64encode (prf password salt it) = d))
                | none => none)
          | none => some false)
      else some false) = some false
    by_cases ha : a = ("pbkdf2_sha256").toList
    · rw [if_pos ha]
      cases hpb : parseInt b with
      | none => rfl
      | some v =>
          rw [hpb] at h'
          simp [ha] at h'
    · rw [if_neg ha]
  · rfl

/-- C9 counterexample: a stored string whose header parses (four fields,
correct tag, integer iteration count) but whose salt field `abc` is not
valid base64 (3 data characters, not a multiple of 4) makes the
`base64.b64decode` call — which sits outside the `try` block — raise, so
`verify_password` is not total: it crashes (`none`) instead of returning
`False`. -/
theorem verify_password_crash_counterexample :
    verify_password (fun _ _ _ => ([] : List ℕ)) (("pw").toList)
      (("pbkdf2_sha256$130000$abc$xyz").toList) = none := by decide

/-- C9 witness: a stored string with a single field is rejected with
`False`, not an exception. -/
theorem verify_password_parse_failure_false_witness :
    verify_password (fun _ _ _ => ([] : List ℕ)) (("pw").toList)
      (("plaintext").toList) = some false :=
  verify_password_parse_failure_false (fun _ _ _ => ([] : List ℕ))
    (("pw").toList) (("plaintext").toList) (by decide)
